/-
Verification of the positional text index, markup stripper, span validator
and overlap detector of the shinra_2019 dataset-inspection tool.

The definitions below are shallow embeddings of the Python source:
  * `splitLines`, `genLineOffsets`, `bisect_right`, `ContentC` and its
    methods embed `shinra/content.py` (class `Content`).
  * The `_HtmlCleaner` event handlers and `clean_html` embed the stripper
    of `shinra/content.py`; the stdlib streaming tokenizer (`HTMLParser`)
    is external to the repository, so the cleaner is modelled as a fold
    over an arbitrary stream of tokenizer events carrying the exact data
    each handler reads (reported position, tag name, construct length).
  * `braces_paired`, `is_overlapped`, `detect_overlap_annotations`,
    `find_html_block_tag` and `check_html_one` embed
    `shinra/inspection/annotation.py`.
Machine strings are modelled as `List Char`; Python integers as `ℕ`
(all quantities involved are provably non-negative).
-/
import Mathlib

namespace Shinra

/-! ### Content: line-offset table (shinra/content.py) -/

/-- Python `raw_content.split('\n')`: split a character list on the literal
newline character.  The result always has (number of newlines + 1) pieces,
and is never empty. -/
def splitLines : List Char → List (List Char)
  | [] => [[]]
  | c :: cs =>
    if c = '\n' then [] :: splitLines cs
    else
      match splitLines cs with
      | [] => [[c]]
      | l :: ls => (c :: l) :: ls

/-- Embeds `Content._gen_line_offsets`: starting from offset 0, yield the
offset of each line's first character, advancing by `len(line) + 1` per
line (the `+ 1` accounts for the `'\n'`), and finally yield the offset one
past the last line. -/
def genLineOffsetsGo (offset : ℕ) : List (List Char) → List ℕ
  | [] => [offset]
  | line :: rest => offset :: genLineOffsetsGo (offset + line.length + 1) rest

/-- `tuple(Content._gen_line_offsets(raw_content))`. -/
def genLineOffsets (raw_content : List Char) : List ℕ :=
  genLineOffsetsGo 0 (splitLines raw_content)

/-- Functional model of Python `bisect.bisect_right(seq, x)`: the number of
leading elements `≤ x` of a sorted sequence, i.e. the insertion point that
keeps `x` to the right of equal entries.  (Python uses binary search; on a
sorted sequence this linear recursion returns the same index, and the
line-offset table is sorted.) -/
def bisect_right : List ℕ → ℕ → ℕ
  | [], _ => 0
  | a :: t, x => if x < a then 0 else bisect_right t x + 1

/-- Embeds class `Content`: an immutable non-empty text buffer.  The
constructor's `assert raw_content` (non-emptiness) appears as a hypothesis
of the theorems that need it. -/
structure ContentC where
  raw_content : List Char

/-- `self._line_offsets`, computed once at construction from the raw text. -/
def ContentC.line_offsets (c : ContentC) : List ℕ :=
  genLineOffsets c.raw_content

/-- `Content.get_char_offset`: `self._line_offsets[line_id] + offset`.
(Indexing is total here via `getD`; every use in the verified claims is
provably in range, matching Python's partial indexing.) -/
def ContentC.get_char_offset (c : ContentC) (line_id offset : ℕ) : ℕ :=
  c.line_offsets.getD line_id 0 + offset

/-- `Content.get_line_offset`: bisect for the line containing
`char_offset`, then return the line id and the column within that line. -/
def ContentC.get_line_offset (c : ContentC) (char_offset : ℕ) : ℕ × ℕ :=
  let i := bisect_right c.line_offsets char_offset
  (i - 1, char_offset - c.line_offsets.getD (i - 1) 0)

/-- `Content.get_text_by_char_offset`: the slice
`raw_content[start:end]` (start inclusive, end exclusive). -/
def ContentC.get_text_by_char_offset (c : ContentC) (start_char_offset end_char_offset : ℕ) :
    List Char :=
  (c.raw_content.take end_char_offset).drop start_char_offset

/-- `Content.get_text`: convert both line/column endpoints to absolute
offsets and slice. -/
def ContentC.get_text (c : ContentC)
    (start_line_id start_offset end_line_id end_offset : ℕ) : List Char :=
  c.get_text_by_char_offset
    (c.get_char_offset start_line_id start_offset)
    (c.get_char_offset end_line_id end_offset)

/-- `Content.get_last_line_offset`: `get_line_offset(len(raw_content))`. -/
def ContentC.get_last_line_offset (c : ContentC) : ℕ × ℕ :=
  c.get_line_offset c.raw_content.length

/-! #### Basic lemmas about the line-offset table -/

theorem splitLines_ne_nil (l : List Char) : splitLines l ≠ [] := by
  cases l with
  | nil => simp [splitLines]
  | cons c cs =>
    simp only [splitLines]
    split
    · simp
    · cases h : splitLines cs <;> simp

theorem genLineOffsetsGo_ne_nil (offset : ℕ) (lines : List (List Char)) :
    genLineOffsetsGo offset lines ≠ [] := by
  cases lines <;> simp [genLineOffsetsGo]

theorem genLineOffsetsGo_head (offset : ℕ) (lines : List (List Char)) :
    (genLineOffsetsGo offset lines).headD 0 = offset := by
  cases lines <;> simp [genLineOffsetsGo]

theorem genLineOffsets_head (raw : List Char) :
    (genLineOffsets raw).headD 0 = 0 := by
  unfold genLineOffsets
  exact genLineOffsetsGo_head 0 (splitLines raw)

/-- The bisect index never exceeds the list length. -/
theorem bisect_right_le_length (l : List ℕ) (x : ℕ) :
    bisect_right l x ≤ l.length := by
  induction l with
  | nil => simp [bisect_right]
  | cons a t ih =>
    simp only [bisect_right, List.length_cons]
    split
    · omega
    · omega

/-- When the head of the table is `≤ x`, bisect returns a positive index. -/
theorem bisect_right_pos {l : List ℕ} {x : ℕ} (h : l.headD (x + 1) ≤ x) :
    0 < bisect_right l x := by
  cases l with
  | nil => simp only [List.headD_nil] at h; omega
  | cons a t =>
    simp only [List.headD_cons] at h
    simp only [bisect_right]
    split
    · omega
    · omega

theorem genLineOffsetsGo_headD (offset : ℕ) (lines : List (List Char)) (d : ℕ) :
    (genLineOffsetsGo offset lines).headD d = offset := by
  cases lines <;> simp [genLineOffsetsGo]

theorem genLineOffsetsGo_head? (offset : ℕ) (lines : List (List Char)) :
    (genLineOffsetsGo offset lines).head? = some offset := by
  cases lines <;> simp [genLineOffsetsGo]

theorem genLineOffsetsGo_length (offset : ℕ) (lines : List (List Char)) :
    (genLineOffsetsGo offset lines).length = lines.length + 1 := by
  induction lines generalizing offset with
  | nil => simp [genLineOffsetsGo]
  | cons l ls ih => simp [genLineOffsetsGo, ih]

theorem genLineOffsetsGo_chain (offset : ℕ) (lines : List (List Char)) :
    List.Chain' (· ≤ ·) (genLineOffsetsGo offset lines) := by
  induction lines generalizing offset with
  | nil => simp [genLineOffsetsGo]
  | cons l ls ih =>
    simp only [genLineOffsetsGo]
    rw [List.chain'_cons']
    refine ⟨?_, ih _⟩
    intro y hy
    rw [genLineOffsetsGo_head? _ ls] at hy
    simp only [Option.mem_def, Option.some.injEq] at hy
    omega

/-- For a non-empty list, `getLastD` does not depend on the default. -/
theorem getLastD_irrel {α : Type} (l : List α) (h : l ≠ []) (d₁ d₂ : α) :
    l.getLastD d₁ = l.getLastD d₂ := by
  cases l with
  | nil => exact absurd rfl h
  | cons a t => rw [List.getLastD_cons, List.getLastD_cons]

theorem genLineOffsetsGo_last (offset : ℕ) (lines : List (List Char)) :
    (genLineOffsetsGo offset lines).getLastD 0
      = offset + (lines.map fun l => l.length + 1).sum := by
  induction lines generalizing offset with
  | nil => simp [genLineOffsetsGo]
  | cons l ls ih =>
    simp only [genLineOffsetsGo, List.getLastD_cons, List.map_cons, List.sum_cons]
    rw [getLastD_irrel _ (genLineOffsetsGo_ne_nil _ ls) offset 0, ih]
    omega

/-- The pieces of `split('\n')` account for the whole text: each piece
contributes its length plus one for the (possibly virtual final) newline. -/
theorem splitLines_sum (l : List Char) :
    ((splitLines l).map fun m => m.length + 1).sum = l.length + 1 := by
  induction l with
  | nil => simp [splitLines]
  | cons c cs ih =>
    by_cases hc : c = '\n'
    · simp only [splitLines, if_pos hc, List.map_cons, List.sum_cons,
        List.length_cons, List.length_nil]
      omega
    · obtain ⟨m, ms, hm⟩ : ∃ m ms, splitLines cs = m :: ms := by
        cases h : splitLines cs with
        | nil => exact absurd h (splitLines_ne_nil cs)
        | cons m ms => exact ⟨m, ms, rfl⟩
      simp only [splitLines, if_neg hc, hm, List.map_cons, List.sum_cons,
        List.length_cons]
      rw [hm] at ih
      simp only [List.map_cons, List.sum_cons] at ih
      omega

/-- `split('\n')` produces (number of newlines + 1) lines. -/
theorem splitLines_length_count (l : List Char) :
    (splitLines l).length = l.count '\n' + 1 := by
  induction l with
  | nil => simp [splitLines]
  | cons c cs ih =>
    by_cases hc : c = '\n'
    · simp [splitLines, hc, List.count_cons, ih]
    · obtain ⟨m, ms, hm⟩ : ∃ m ms, splitLines cs = m :: ms := by
        cases h : splitLines cs with
        | nil => exact absurd h (splitLines_ne_nil cs)
        | cons m ms => exact ⟨m, ms, rfl⟩
      simp only [splitLines, if_neg hc, hm, List.length_cons, List.count_cons]
      rw [hm] at ih
      simp only [List.length_cons] at ih
      simp [ih, hc]

/-- The table entry just before the bisect insertion point is `≤ x`. -/
theorem getD_bisect_right_sub_one_le (l : List ℕ) (x : ℕ)
    (h : 0 < bisect_right l x) :
    l.getD (bisect_right l x - 1) 0 ≤ x := by
  induction l with
  | nil => simp [bisect_right] at h
  | cons a t ih =>
    by_cases hax : x < a
    · simp [bisect_right, hax] at h
    · simp only [bisect_right, if_neg hax, Nat.add_sub_cancel]
      cases hbt : bisect_right t x with
      | zero => simpa using Nat.not_lt.mp hax
      | succ k =>
        have hle := ih (by omega)
        rw [hbt] at hle
        simpa using hle

/-- Core round-trip fact: converting any absolute offset to a line/column
pair and back returns the same offset.  Holds because the table starts at 0
(so bisect returns a positive index) and the entry at the returned line is
`≤` the offset (so the column subtraction is exact). -/
theorem content_roundtrip (c : ContentC) (o : ℕ) :
    c.get_char_offset (c.get_line_offset o).1 (c.get_line_offset o).2 = o := by
  have hpos : 0 < bisect_right c.line_offsets o := by
    apply bisect_right_pos
    have hhead : (genLineOffsets c.raw_content).headD (o + 1) = 0 := by
      unfold genLineOffsets
      exact genLineOffsetsGo_headD 0 (splitLines c.raw_content) (o + 1)
    show c.line_offsets.headD (o + 1) ≤ o
    rw [ContentC.line_offsets, hhead]
    omega
  have hle := getD_bisect_right_sub_one_le c.line_offsets o hpos
  simp only [ContentC.get_line_offset, ContentC.get_char_offset]
  omega

/-! ### Claims about the positional index -/

/-- Claim C2: for every non-empty text and every absolute offset `o` with
`0 ≤ o ≤ len(T)` (in particular every offset produced by a
`get_char_offset` call), `get_char_offset (get_line_offset o) = o`: the
line/column decomposition is a right inverse of recomposition. -/
theorem get_char_offset_get_line_offset_roundtrip (c : ContentC)
    (_hne : c.raw_content ≠ []) (o : ℕ) (_ho : o ≤ c.raw_content.length) :
    c.get_char_offset (c.get_line_offset o).1 (c.get_line_offset o).2 = o :=
  content_roundtrip c o

theorem get_char_offset_get_line_offset_roundtrip_witness :
    (['a','b','\n','c','d'] ≠ ([] : List Char)
      ∧ 3 ≤ (['a','b','\n','c','d'] : List Char).length)
    ∧ (ContentC.mk ['a','b','\n','c','d']).get_char_offset
        ((ContentC.mk ['a','b','\n','c','d']).get_line_offset 3).1
        ((ContentC.mk ['a','b','\n','c','d']).get_line_offset 3).2 = 3 :=
  ⟨⟨by decide, by decide⟩,
   get_char_offset_get_line_offset_roundtrip ⟨['a','b','\n','c','d']⟩
     (by decide) 3 (by decide)⟩

/-- Claim C5 (amended): for every non-empty text the line-start table has
exactly (number of `'\n'`-delimited lines) + 1 entries, starts at 0 and is
non-decreasing; its final sentinel entry equals `len(text) + 1` (each line
contributes `len(line) + 1`, counting a `'\n'` even for the last line) —
not `len(text)` as the original claim states. -/
theorem line_offset_table_shape (c : ContentC) (_hne : c.raw_content ≠ []) :
    c.line_offsets.length = (splitLines c.raw_content).length + 1
    ∧ (splitLines c.raw_content).length = c.raw_content.count '\n' + 1
    ∧ c.line_offsets.headD 0 = 0
    ∧ List.Chain' (· ≤ ·) c.line_offsets
    ∧ c.line_offsets.getLastD 0 = c.raw_content.length + 1 := by
  refine ⟨?_, splitLines_length_count _, ?_, ?_, ?_⟩
  · unfold ContentC.line_offsets genLineOffsets
    exact genLineOffsetsGo_length 0 _
  · exact genLineOffsets_head c.raw_content
  · unfold ContentC.line_offsets genLineOffsets
    exact genLineOffsetsGo_chain 0 _
  · unfold ContentC.line_offsets genLineOffsets
    rw [genLineOffsetsGo_last, splitLines_sum]
    omega

/-- Claim C5 counterexample: for the text `"a"` the final sentinel entry of
the table is `2 = len + 1`, not `len = 1`; the table is `[0, 2]`. -/
theorem line_offset_sentinel_ne_length :
    (ContentC.mk ['a']).line_offsets.getLastD 0 ≠ (['a'] : List Char).length := by
  decide

theorem line_offset_table_shape_witness :
    (['a','b','\n','c'] ≠ ([] : List Char))
    ∧ ((ContentC.mk ['a','b','\n','c']).line_offsets.length
          = (splitLines ['a','b','\n','c']).length + 1
        ∧ (splitLines ['a','b','\n','c']).length
            = (['a','b','\n','c'] : List Char).count '\n' + 1
        ∧ (ContentC.mk ['a','b','\n','c']).line_offsets.headD 0 = 0
        ∧ List.Chain' (· ≤ ·) (ContentC.mk ['a','b','\n','c']).line_offsets
        ∧ (ContentC.mk ['a','b','\n','c']).line_offsets.getLastD 0
            = (['a','b','\n','c'] : List Char).length + 1) :=
  ⟨by decide, line_offset_table_shape ⟨['a','b','\n','c']⟩ (by decide)⟩

/-- Claim C7: for every non-empty text, converting the pair returned by
`get_last_line_offset` back with `get_char_offset` yields exactly
`len(text)`. -/
theorem get_last_line_offset_roundtrip (c : ContentC)
    (_hne : c.raw_content ≠ []) :
    c.get_char_offset c.get_last_line_offset.1 c.get_last_line_offset.2
      = c.raw_content.length := by
  unfold ContentC.get_last_line_offset
  exact content_roundtrip c c.raw_content.length

theorem get_last_line_offset_roundtrip_witness :
    (['x','\n','y'] ≠ ([] : List Char))
    ∧ (ContentC.mk ['x','\n','y']).get_char_offset
        (ContentC.mk ['x','\n','y']).get_last_line_offset.1
        (ContentC.mk ['x','\n','y']).get_last_line_offset.2
      = (['x','\n','y'] : List Char).length :=
  ⟨by decide, get_last_line_offset_roundtrip ⟨['x','\n','y']⟩ (by decide)⟩

/-! ### MarkupStripper (`_HtmlCleaner`, shinra/content.py)

The stdlib `HTMLParser` tokenizer is outside the repository; the cleaner is
therefore embedded as a fold of the source's event handlers over an
arbitrary stream of tokenizer events.  Each event carries exactly the data
the corresponding handler reads: the `getpos()` position (1-based line,
0-based column) and the tag name / construct length.  Every theorem below
quantifies over the event stream, so it covers whatever events the real
tokenizer emits. -/

/-- One tokenizer callback, with the data the handler reads. -/
inductive HtmlEvent where
  | decl (pos : ℕ × ℕ) (declLen : ℕ)
  | starttag (pos : ℕ × ℕ) (tag : List Char)
  | startendtag (pos : ℕ × ℕ) (tag : List Char)
  | endtag (pos : ℕ × ℕ) (tag : List Char)
  | comment (pos : ℕ × ℕ) (dataLen : ℕ)
  | data (pos : ℕ × ℕ) (dataLen : ℕ)
  | entityref
  | charref
deriving DecidableEq

/-- Mutable state of `_HtmlCleaner` during `clean`. -/
structure CleanerState where
  script_tag_stack : List (List Char)
  cleaned_content : List Char
deriving DecidableEq

/-- `_HtmlCleaner._is_newline`. -/
def is_newline (c : Char) : Bool := c = '\n'

/-- `_HtmlCleaner._is_script_tag`: `tag.strip().lower() == 'script'`.
Whitespace stripping and ASCII lowercasing model Python's `str.strip` /
`str.lower` on the tag names the tokenizer reports. -/
def is_script_tag (tag : List Char) : Bool :=
  ((tag.dropWhile Char.isWhitespace).reverse.dropWhile Char.isWhitespace).reverse.map
      Char.toLower
    = ['s','c','r','i','p','t']

/-- `_HtmlCleaner._set_blank`: for each index in `[start, end)` overwrite
the character with `' '` unless it is a newline.  (Python mutates
`self._cleaned_content[i]` in place; `List.set` is its functional
counterpart.) -/
def set_blank (start_char_offset end_char_offset : ℕ) (cleaned : List Char) :
    List Char :=
  (List.range' start_char_offset (end_char_offset - start_char_offset)).foldl
    (fun acc i => if is_newline (acc.getD i ' ') then acc else acc.set i ' ')
    cleaned

/-- `_HtmlCleaner._get_position`: `getpos()` with the line made 0-based. -/
def get_position (pos : ℕ × ℕ) : ℕ × ℕ := (pos.1 - 1, pos.2)

/-- Python `raw_content.find('>', start)`: index of the first `'>'` at or
after `start`, if any (Python returns `-1` when absent). -/
def find_gt (raw : List Char) (start : ℕ) : Option ℕ :=
  match (raw.drop start).findIdx? (· = '>') with
  | none => none
  | some i => some (start + i)

/-- The char offset a handler computes from the reported position:
`self._content.get_char_offset(*self._get_position())`. -/
def event_char_offset (c : ContentC) (pos : ℕ × ℕ) : ℕ :=
  c.get_char_offset (get_position pos).1 (get_position pos).2

/-- `_HtmlCleaner._clear_tag`: blank from the tag's `<` through the next
`'>'` in the raw buffer.  When no `'>'` follows, Python's `find` returns
`-1` and `range(char_offset, 0)` is empty, so nothing is blanked. -/
def clear_tag (c : ContentC) (st : CleanerState) (pos : ℕ × ℕ) : CleanerState :=
  let char_offset := event_char_offset c pos
  match find_gt c.raw_content char_offset with
  | some index =>
      { st with cleaned_content := set_blank char_offset (index + 1) st.cleaned_content }
  | none =>
      { st with cleaned_content := set_blank char_offset 0 st.cleaned_content }

/-- `_HtmlCleaner.handle_decl`: blank `<!` + declaration + `>`. -/
def handle_decl (c : ContentC) (st : CleanerState) (pos : ℕ × ℕ) (declLen : ℕ) :
    CleanerState :=
  let char_offset := event_char_offset c pos
  { st with cleaned_content := set_blank char_offset (char_offset + declLen + 3) st.cleaned_content }

/-- `_HtmlCleaner.handle_starttag`: clear the tag, pushing script tags. -/
def handle_starttag (c : ContentC) (st : CleanerState) (pos : ℕ × ℕ)
    (tag : List Char) : CleanerState :=
  let st := clear_tag c st pos
  if is_script_tag tag then
    { st with script_tag_stack := st.script_tag_stack ++ [tag] }
  else st

/-- `_HtmlCleaner.handle_startendtag`: clear the tag. -/
def handle_startendtag (c : ContentC) (st : CleanerState) (pos : ℕ × ℕ) :
    CleanerState :=
  clear_tag c st pos

/-- `_HtmlCleaner.handle_endtag`: clear the tag; for a script end tag pop
the script stack.  Python's `list.pop()` raises `IndexError` on an empty
list, modelled as `none`. -/
def handle_endtag (c : ContentC) (st : CleanerState) (pos : ℕ × ℕ)
    (tag : List Char) : Option CleanerState :=
  let st := clear_tag c st pos
  if is_script_tag tag then
    match st.script_tag_stack with
    | [] => none
    | _ :: _ => some { st with script_tag_stack := st.script_tag_stack.dropLast }
  else some st

/-- `_HtmlCleaner.handle_comment`: blank `<!--` + data + `-->`. -/
def handle_comment (c : ContentC) (st : CleanerState) (pos : ℕ × ℕ)
    (dataLen : ℕ) : CleanerState :=
  let char_offset := event_char_offset c pos
  { st with cleaned_content := set_blank char_offset (char_offset + dataLen + 7) st.cleaned_content }

/-- `_HtmlCleaner.handle_data`: blank text data only inside a script tag. -/
def handle_data (c : ContentC) (st : CleanerState) (pos : ℕ × ℕ)
    (dataLen : ℕ) : CleanerState :=
  match st.script_tag_stack with
  | [] => st
  | _ :: _ =>
    let char_offset := event_char_offset c pos
    { st with cleaned_content := set_blank char_offset (char_offset + dataLen) st.cleaned_content }

/-- Dispatch of one tokenizer event to the corresponding handler.
`handle_entityref` and `handle_charref` are `pass` in the source. -/
def clean_step (c : ContentC) (st : CleanerState) : HtmlEvent → Option CleanerState
  | .decl pos declLen => some (handle_decl c st pos declLen)
  | .starttag pos tag => some (handle_starttag c st pos tag)
  | .startendtag pos _tag => some (handle_startendtag c st pos)
  | .endtag pos tag => handle_endtag c st pos tag
  | .comment pos dataLen => some (handle_comment c st pos dataLen)
  | .data pos dataLen => some (handle_data c st pos dataLen)
  | .entityref => some st
  | .charref => some st

/-- Run the handlers over the stream of events the tokenizer emits. -/
def run_events (c : ContentC) (st : CleanerState) : List HtmlEvent → Option CleanerState
  | [] => some st
  | e :: rest =>
    match clean_step c st e with
    | none => none
    | some st2 => run_events c st2 rest

/-- `_HtmlCleaner.clean` / module-level `clean_html`: start from a copy of
the raw buffer and an empty script stack, feed the buffer to the tokenizer
(modelled by its event stream), and return the mutated copy; `none` models
an exception escaping `feed`. -/
def clean_html (c : ContentC) (events : List HtmlEvent) : Option (List Char) :=
  match run_events c ⟨[], c.raw_content⟩ events with
  | none => none
  | some st => some st.cleaned_content

/-! #### Pointwise relation between the raw and the cleaned buffer -/

/-- Invariant maintained by every handler: the cleaned buffer has the raw
buffer's length, and at each position it holds either the original
character or a blank that replaced a non-newline character. -/
def blank_rel (raw cleaned : List Char) : Prop :=
  cleaned.length = raw.length ∧
  ∀ i, cleaned.getD i ' ' = raw.getD i ' '
      ∨ (cleaned.getD i ' ' = ' ' ∧ raw.getD i ' ' ≠ '\n')

theorem blank_rel_refl (raw : List Char) : blank_rel raw raw :=
  ⟨rfl, fun _ => Or.inl rfl⟩

/-- Effect of `List.set` on `getD`, with out-of-range sets a no-op. -/
theorem set_getD (l : List Char) (i j : ℕ) (a d : Char) :
    (l.set i a).getD j d
      = if i = j ∧ j < l.length then a else l.getD j d := by
  induction l generalizing i j with
  | nil => simp
  | cons b t ih =>
    cases i with
    | zero =>
      cases j with
      | zero => simp
      | succ j' => simp
    | succ i' =>
      cases j with
      | zero => simp
      | succ j' =>
        simp only [List.set_cons_succ, List.getD_cons_succ, List.length_cons]
        rw [ih i' j']
        split_ifs <;> first | rfl | omega

/-- Overwriting one non-newline position with a blank keeps the invariant. -/
theorem blank_rel_set {raw cl : List Char} (h : blank_rel raw cl) (i : ℕ)
    (hn : cl.getD i ' ' ≠ '\n') : blank_rel raw (cl.set i ' ') := by
  obtain ⟨hlen, hpt⟩ := h
  constructor
  · rw [List.length_set, hlen]
  · intro j
    rw [set_getD]
    split_ifs with hc
    · obtain ⟨hij, _⟩ := hc
      subst hij
      rcases hpt i with heq | ⟨_, hraw⟩
      · exact Or.inr ⟨rfl, by rw [← heq]; exact hn⟩
      · exact Or.inr ⟨rfl, hraw⟩
    · exact hpt j

/-- `set_blank` keeps the invariant for any range. -/
theorem blank_rel_set_blank {raw cl : List Char} (h : blank_rel raw cl)
    (s e : ℕ) : blank_rel raw (set_blank s e cl) := by
  unfold set_blank
  generalize List.range' s (e - s) = idxs
  induction idxs generalizing cl with
  | nil => simpa using h
  | cons i rest ih =>
    simp only [List.foldl_cons]
    apply ih
    by_cases hn : is_newline (cl.getD i ' ')
    · simp only [hn, if_true]
      exact h
    · simp only [hn, Bool.false_eq_true, if_false]
      apply blank_rel_set h i
      simpa [is_newline] using hn

theorem blank_rel_clear_tag (c : ContentC) {st : CleanerState} (pos : ℕ × ℕ)
    (h : blank_rel c.raw_content st.cleaned_content) :
    blank_rel c.raw_content (clear_tag c st pos).cleaned_content := by
  unfold clear_tag
  dsimp only
  split <;> exact blank_rel_set_blank h _ _

/-- Every handler keeps the cleaned buffer related to the raw buffer. -/
theorem blank_rel_clean_step (c : ContentC) {st st2 : CleanerState}
    (e : HtmlEvent) (hstep : clean_step c st e = some st2)
    (h : blank_rel c.raw_content st.cleaned_content) :
    blank_rel c.raw_content st2.cleaned_content := by
  cases e with
  | decl pos declLen =>
    simp only [clean_step, Option.some.injEq] at hstep
    subst hstep
    exact blank_rel_set_blank h _ _
  | starttag pos tag =>
    simp only [clean_step, Option.some.injEq] at hstep
    subst hstep
    unfold handle_starttag
    split
    · exact blank_rel_clear_tag c pos h
    · exact blank_rel_clear_tag c pos h
  | startendtag pos tag =>
    simp only [clean_step, Option.some.injEq] at hstep
    subst hstep
    exact blank_rel_clear_tag c pos h
  | endtag pos tag =>
    simp only [clean_step, handle_endtag] at hstep
    split at hstep
    · split at hstep
      · exact absurd hstep (by simp)
      · simp only [Option.some.injEq] at hstep
        subst hstep
        exact blank_rel_clear_tag c pos h
    · simp only [Option.some.injEq] at hstep
      subst hstep
      exact blank_rel_clear_tag c pos h
  | comment pos dataLen =>
    simp only [clean_step, Option.some.injEq] at hstep
    subst hstep
    exact blank_rel_set_blank h _ _
  | data pos dataLen =>
    simp only [clean_step, Option.some.injEq] at hstep
    subst hstep
    unfold handle_data
    split
    · exact h
    · exact blank_rel_set_blank h _ _
  | entityref =>
    simp only [clean_step, Option.some.injEq] at hstep
    subst hstep
    exact h
  | charref =>
    simp only [clean_step, Option.some.injEq] at hstep
    subst hstep
    exact h

theorem blank_rel_run_events (c : ContentC) (events : List HtmlEvent) :
    ∀ st st2, run_events c st events = some st2 →
      blank_rel c.raw_content st.cleaned_content →
      blank_rel c.raw_content st2.cleaned_content := by
  induction events with
  | nil =>
    intro st st2 h hrel
    simp only [run_events, Option.some.injEq] at h
    subst h
    exact hrel
  | cons e rest ih =>
    intro st st2 h hrel
    simp only [run_events] at h
    cases hstep : clean_step c st e with
    | none => rw [hstep] at h; simp at h
    | some st1 =>
      rw [hstep] at h
      exact ih st1 st2 h (blank_rel_clean_step c e hstep hrel)

/-- Any buffer `clean_html` returns is pointwise a blanking of the input. -/
theorem clean_html_blank_rel {c : ContentC} {events : List HtmlEvent}
    {out : List Char} (h : clean_html c events = some out) :
    blank_rel c.raw_content out := by
  unfold clean_html at h
  cases hr : run_events c ⟨[], c.raw_content⟩ events with
  | none => rw [hr] at h; simp at h
  | some st =>
    rw [hr] at h
    simp only [Option.some.injEq] at h
    subst h
    exact blank_rel_run_events c events _ st hr (blank_rel_refl _)

/-! ### Claims about the markup stripper -/

/-- Claim C1 (amended): for every input and every tokenizer event stream on
which `clean_html` returns, the output has exactly the input's length.
The original claim's "returns normally for every non-empty input" is
false: on a stray script end tag the cleaner pops an empty stack (see the
counterexample below). -/
theorem clean_html_length_preserved (c : ContentC) (events : List HtmlEvent)
    (out : List Char) (h : clean_html c events = some out) :
    out.length = c.raw_content.length :=
  (clean_html_blank_rel h).1

theorem clean_html_length_preserved_witness :
    clean_html ⟨['<','b','>','a']⟩ [HtmlEvent.starttag (1, 0) ['b']]
        = some [' ',' ',' ','a']
    ∧ ([' ',' ',' ','a'] : List Char).length
        = (['<','b','>','a'] : List Char).length :=
  ⟨by decide,
   clean_html_length_preserved ⟨['<','b','>','a']⟩
     [HtmlEvent.starttag (1, 0) ['b']] [' ',' ',' ','a'] (by decide)⟩

/-- Modelled from the spec: the tokenizer driving `_HtmlCleaner` is the
external stdlib `HTMLParser` (not under src/).  Per the spec's
MarkupStripper interface ("an event-driven scan of the markup" reporting
start tags, end tags, comments, declarations and text), the tokenizer
reports one end-tag event named `script` at reported position
(line 1, column 0) for the input `"</script>"`. -/
def stray_script_endtag_events : List HtmlEvent :=
  [HtmlEvent.endtag (1, 0) ['s','c','r','i','p','t']]

/-- Claim C1 counterexample: on the input `"</script>"` (a stray script
end tag, i.e. unbalanced markup) `clean_html` does not return normally:
`handle_endtag` pops the empty script-tag stack, which in Python raises
IndexError. -/
theorem clean_html_stray_script_endtag_fails :
    clean_html ⟨['<','/','s','c','r','i','p','t','>']⟩
      stray_script_endtag_events = none := by
  decide

/-- Claim C6: for every input and every event stream on which `clean_html`
returns, position `i` holds a `'\n'` in the output iff it does in the
input: blanking never overwrites a literal newline and never introduces
one. -/
theorem clean_html_newline_iff (c : ContentC) (events : List HtmlEvent)
    (out : List Char) (h : clean_html c events = some out) (i : ℕ) :
    out.getD i ' ' = '\n' ↔ c.raw_content.getD i ' ' = '\n' := by
  rcases (clean_html_blank_rel h).2 i with heq | ⟨hsp, hraw⟩
  · rw [heq]
  · constructor
    · intro hc
      rw [hsp] at hc
      exact absurd hc (by decide)
    · intro hc
      exact absurd hc hraw

theorem clean_html_newline_iff_witness :
    clean_html ⟨['<','b','\n','>','a']⟩ [HtmlEvent.starttag (1, 0) ['b']]
        = some [' ',' ','\n',' ','a']
    ∧ ((([' ',' ','\n',' ','a'] : List Char).getD 2 ' ' = '\n')
        ↔ (['<','b','\n','>','a'] : List Char).getD 2 ' ' = '\n') :=
  ⟨by decide,
   clean_html_newline_iff ⟨['<','b','\n','>','a']⟩
     [HtmlEvent.starttag (1, 0) ['b']] [' ',' ','\n',' ','a'] (by decide) 2⟩

/-- Claim C10: for every input and every event stream on which
`clean_html` returns, every output character is either exactly the input
character at the same position or a single ASCII space, and the output has
the input's length: non-blanked text (including undecoded entity and
character references, whose handlers are no-ops) is preserved verbatim in
place. -/
theorem clean_html_char_preserved_or_blank (c : ContentC)
    (events : List HtmlEvent) (out : List Char)
    (h : clean_html c events = some out) :
    out.length = c.raw_content.length
    ∧ ∀ i, out.getD i ' ' = c.raw_content.getD i ' ' ∨ out.getD i ' ' = ' ' := by
  obtain ⟨hlen, hpt⟩ := clean_html_blank_rel h
  exact ⟨hlen, fun i => (hpt i).imp id And.left⟩

theorem clean_html_char_preserved_or_blank_witness :
    clean_html
        ⟨['<','s','c','r','i','p','t','>','x','<','/','s','c','r','i','p','t','>']⟩
        [HtmlEvent.starttag (1, 0) ['s','c','r','i','p','t'],
         HtmlEvent.data (1, 8) 1,
         HtmlEvent.endtag (1, 9) ['s','c','r','i','p','t']]
        = some (List.replicate 18 ' ')
    ∧ ((List.replicate 18 ' ').getD 8 ' '
          = (['<','s','c','r','i','p','t','>','x','<','/','s','c','r','i','p','t','>'] :
              List Char).getD 8 ' '
        ∨ (List.replicate 18 ' ').getD 8 ' ' = ' ') :=
  ⟨by decide,
   (clean_html_char_preserved_or_blank
     ⟨['<','s','c','r','i','p','t','>','x','<','/','s','c','r','i','p','t','>']⟩
     [HtmlEvent.starttag (1, 0) ['s','c','r','i','p','t'],
      HtmlEvent.data (1, 8) 1,
      HtmlEvent.endtag (1, 9) ['s','c','r','i','p','t']]
     (List.replicate 18 ' ') (by decide)).2 8⟩

/-! ### OverlapDetector (shinra/inspection/annotation.py) -/

/-- Embeds `_is_overlapped`: the two half-open ranges intersect.  The two
`assert start < end` preconditions are modelled by `none` on violation
(Python raises AssertionError). -/
def is_overlapped (start_offset_a end_offset_a start_offset_b end_offset_b : ℕ) :
    Option Bool :=
  if start_offset_a < end_offset_a then
    if start_offset_b < end_offset_b then
      some (decide (¬ (end_offset_a ≤ start_offset_b
        ∨ end_offset_b ≤ start_offset_a)))
    else none
  else none

/-- Inner scan of `_detect_overlap_annotations` for a fixed triple
`(start_offset_a, end_offset_a, a)`: walk the later triples in order,
breaking as soon as `end_offset_a ≤ start_offset_b`, and yield the pairs
whose ranges overlap; `none` propagates an assertion failure. -/
def detect_overlap_inner {α : Type} (start_offset_a end_offset_a : ℕ) (a : α) :
    List (ℕ × ℕ × α) → Option (List (α × α))
  | [] => some []
  | (start_offset_b, end_offset_b, b) :: rest =>
    if end_offset_a ≤ start_offset_b then some []
    else
      match is_overlapped start_offset_a end_offset_a
          start_offset_b end_offset_b with
      | none => none
      | some ov =>
        match detect_overlap_inner start_offset_a end_offset_a a rest with
        | none => none
        | some tail => some (if ov then (a, b) :: tail else tail)

/-- Embeds `_detect_overlap_annotations` over sorted
`(start, end, annotation)` triples: for each triple in order, scan the
later triples with the early-break inner loop. -/
def detect_overlap_annotations {α : Type} :
    List (ℕ × ℕ × α) → Option (List (α × α))
  | [] => some []
  | (start_offset_a, end_offset_a, a) :: rest =>
    match detect_overlap_inner start_offset_a end_offset_a a rest with
    | none => none
    | some l1 =>
      match detect_overlap_annotations rest with
      | none => none
      | some l2 => some (l1 ++ l2)

/-- Spec-side overlap test, exactly the spec's wording:
`not (end_a <= start_b or end_b <= start_a)`. -/
def overlapsB (start_offset_a end_offset_a start_offset_b end_offset_b : ℕ) :
    Bool :=
  decide (¬ (end_offset_a ≤ start_offset_b ∨ end_offset_b ≤ start_offset_a))

/-- Spec-side enumeration of overlapping pairs: for every ordered index
pair (i, j) with i < j whose ranges intersect, one pair oriented earlier
element first, in scan order.  Used to state claim C3 as a refinement. -/
def overlap_pairs_spec {α : Type} : List (ℕ × ℕ × α) → List (α × α)
  | [] => []
  | (sa, ea, a) :: rest =>
    ((rest.filter fun t => overlapsB sa ea t.1 t.2.1).map fun t => (a, t.2.2))
      ++ overlap_pairs_spec rest

/-- The early break is sound: on a start-sorted tail with valid spans, the
inner scan computes exactly the overlapping pairs with its head. -/
theorem detect_overlap_inner_eq_spec {α : Type} (sa ea : ℕ) (a : α)
    (hsa : sa < ea) (rest : List (ℕ × ℕ × α))
    (hv : ∀ t ∈ rest, t.1 < t.2.1)
    (hmono : rest.Pairwise fun x y => x.1 ≤ y.1) :
    detect_overlap_inner sa ea a rest
      = some ((rest.filter fun t => overlapsB sa ea t.1 t.2.1).map
          fun t => (a, t.2.2)) := by
  induction rest with
  | nil => rfl
  | cons hd tl ih =>
    obtain ⟨sb, eb, b⟩ := hd
    rw [List.pairwise_cons] at hmono
    obtain ⟨hhd, htl⟩ := hmono
    by_cases hbr : ea ≤ sb
    · simp only [detect_overlap_inner, if_pos hbr]
      have hfilter :
          ((sb, eb, b) :: tl).filter (fun t => overlapsB sa ea t.1 t.2.1)
            = [] := by
        rw [List.filter_eq_nil_iff]
        intro t ht
        have hle : ea ≤ t.1 := by
          rcases List.mem_cons.mp ht with heq | hmem
          · rw [heq]; exact hbr
          · exact le_trans hbr (hhd t hmem)
        simp [overlapsB]
        intro hlt
        omega
      rw [hfilter]
      simp
    · have hsb : sb < eb := hv (sb, eb, b) (List.mem_cons_self _ _)
      simp only [detect_overlap_inner, if_neg hbr, is_overlapped,
        if_pos hsa, if_pos hsb]
      rw [ih (fun t ht => hv t (List.mem_cons_of_mem _ ht)) htl]
      simp only [overlapsB, List.filter_cons]
      split_ifs with hc
      · simp
      · rfl

/-- Claim C3: for every finite list of (start, end, annotation) triples
with start < end for each triple, sorted ascending by (start, end), the
detector returns exactly the spec-side enumeration: one pair for every
ordered index pair (i, j), i < j, whose half-open ranges intersect
(`not (end_a <= start_b or end_b <= start_a)`), oriented earlier index
first — so a pair is emitted iff the ranges intersect, no triple is
paired with itself, and each unordered pair is emitted at most once. -/
theorem detect_overlap_annotations_eq_spec {α : Type} (l : List (ℕ × ℕ × α))
    (hvalid : ∀ t ∈ l, t.1 < t.2.1)
    (hsorted : l.Pairwise fun x y => x.1 < y.1 ∨ (x.1 = y.1 ∧ x.2.1 ≤ y.2.1)) :
    detect_overlap_annotations l = some (overlap_pairs_spec l) := by
  induction l with
  | nil => rfl
  | cons hd tl ih =>
    obtain ⟨sa, ea, a⟩ := hd
    rw [List.pairwise_cons] at hsorted
    obtain ⟨hhd, htl⟩ := hsorted
    have hmono : tl.Pairwise fun x y => x.1 ≤ y.1 :=
      htl.imp (fun hxy => by omega)
    have hsa : sa < ea := hvalid (sa, ea, a) (List.mem_cons_self _ _)
    simp only [detect_overlap_annotations, overlap_pairs_spec]
    rw [detect_overlap_inner_eq_spec sa ea a hsa tl
      (fun t ht => hvalid t (List.mem_cons_of_mem _ ht)) hmono]
    rw [ih (fun t ht => hvalid t (List.mem_cons_of_mem _ ht)) htl]

/-- Scenario witness for claim C3: three spans `[0,2)`, `[1,3)`, `[5,6)`
(labelled 1, 2, 3) yield exactly one pair, the first two. -/
theorem detect_overlap_annotations_eq_spec_witness :
    detect_overlap_annotations ([(0, 2, 1), (1, 3, 2), (5, 6, 3)] :
        List (ℕ × ℕ × ℕ)) = some [(1, 2)] := by
  rw [detect_overlap_annotations_eq_spec _ (by decide) (by decide)]
  decide

/-- Claim C9 counterexample: a collection containing a zero-length span
`[5, 5)` on which the computation is NOT fatal: for a singleton collection
the pair scan examines nothing, `_is_overlapped` is never called, and the
detector returns an empty result instead of aborting. -/
theorem detect_overlap_singleton_malformed_not_fatal :
    detect_overlap_annotations ([(5, 5, 1)] : List (ℕ × ℕ × ℕ)) = some [] := by
  decide

/-- Claim C9 (amended): the malformed-span assertion is fatal exactly when
the pair scan reaches the malformed span.  A singleton collection never
aborts, however malformed; a two-element collection aborts iff the early
break does not fire (`start_b < end_a`) and one of the two spans is
malformed (`start ≥ end`). -/
theorem detect_overlap_malformed_fatal_iff_examined (sa ea sb eb a b : ℕ) :
    detect_overlap_annotations [(sa, ea, a)] ≠ none
    ∧ (detect_overlap_annotations [(sa, ea, a), (sb, eb, b)] = none
        ↔ (sb < ea ∧ (ea ≤ sa ∨ eb ≤ sb))) := by
  constructor
  · simp [detect_overlap_annotations, detect_overlap_inner]
  · simp only [detect_overlap_annotations, detect_overlap_inner,
      is_overlapped]
    split_ifs <;> simp_all

/-! ### Delimiter pairing (`_braces_paired`, shinra/inspection/annotation.py) -/

/-- Embeds `_BRACE_PAIRS`: the six (open, close) delimiter pairs.  The
ASCII curly braces are written via their code points 123 and 125. -/
def brace_pairs : List (Char × Char) :=
  [('(', ')'), ('[', ']'), (Char.ofNat 123, Char.ofNat 125), ('<', '>'),
   ('「', '」'), ('『', '』')]

/-- Embeds the `_OPEN_BRACE_TO_CLOSE` dict lookup. -/
def open_brace_to_close (ch : Char) : Option Char :=
  (brace_pairs.find? fun p => p.1 = ch).map Prod.snd

/-- Embeds the `_CLOSE_BRACE_TO_OPEN` dict lookup. -/
def close_brace_to_open (ch : Char) : Option Char :=
  (brace_pairs.find? fun p => p.2 = ch).map Prod.fst

/-- The stack loop of `_braces_paired` (everything after the NFKC
normalization): push openers, pop and match closers; fail on a closer with
an empty stack, a mismatched closer, or a non-empty final stack.  Python
appends and pops at the list tail (`braces_stack.append` / `.pop()`). -/
def braces_loop : List Char → List Char → Bool
  | braces_stack, [] => braces_stack.isEmpty
  | braces_stack, ch :: rest =>
    if (open_brace_to_close ch).isSome then
      braces_loop (braces_stack ++ [ch]) rest
    else
      match close_brace_to_open ch with
      | none => braces_loop braces_stack rest
      | some opener =>
        match braces_stack.getLast? with
        | none => false
        | some last_open_brace =>
          if opener ≠ last_open_brace then false
          else braces_loop braces_stack.dropLast rest

/-- Embeds `_braces_paired(text)`: NFKC-normalize, then run the stack
loop.  The normalizer (stdlib `unicodedata.normalize('NFKC', ·)`) is
external to the repository and is passed as a parameter. -/
def braces_paired (nfkc : List Char → List Char) (text : List Char) : Bool :=
  braces_loop [] (nfkc text)

/-- Spec-side stack discipline over the six delimiter pairs, following the
spec's wording: scan the text, pushing each opener; on a closer, pop the
most recent opener and require a match; fail on a closer with no opener on
the stack, on a mismatch, or on leftover openers at the end.  (Head-cons
stack, most recent opener first.) -/
def delimiter_stack_ok : List Char → List Char → Bool
  | stack, [] => stack.isEmpty
  | stack, ch :: rest =>
    if (open_brace_to_close ch).isSome then
      delimiter_stack_ok (ch :: stack) rest
    else
      match close_brace_to_open ch with
      | none => delimiter_stack_ok stack rest
      | some opener =>
        match stack with
        | [] => false
        | top :: stack2 =>
          if opener = top then delimiter_stack_ok stack2 rest else false

/-- The source's tail-append stack computes the spec's head-cons stack
discipline: the two stacks are each other's reversal. -/
theorem isEmpty_reverse_eq (l : List Char) : l.reverse.isEmpty = l.isEmpty := by
  cases l with
  | nil => rfl
  | cons a t =>
    have h2 : (t.reverse ++ [a]).isEmpty = false := by
      cases h : t.reverse ++ [a] with
      | nil => exact absurd h (by simp)
      | cons x xs => rfl
    rw [List.reverse_cons, h2]
    rfl

theorem braces_loop_eq_stack_ok (text : List Char) :
    ∀ s : List Char, braces_loop s text = delimiter_stack_ok s.reverse text := by
  induction text with
  | nil =>
    intro s
    show s.isEmpty = s.reverse.isEmpty
    rw [isEmpty_reverse_eq]
  | cons ch rest ih =>
    intro s
    simp only [braces_loop, delimiter_stack_ok]
    split_ifs with ho
    · rw [ih (s ++ [ch])]
      simp
    · cases hc : close_brace_to_open ch with
      | none => exact ih s
      | some opener =>
        cases hsr : s.reverse with
        | nil =>
          have hs : s = [] := by simpa using congrArg List.reverse hsr
          subst hs
          rfl
        | cons top stack2 =>
          have hs : s = stack2.reverse ++ [top] := by
            have h2 := congrArg List.reverse hsr
            simpa using h2
          rw [hs, List.getLast?_concat, List.dropLast_concat]
          by_cases hot : opener = top
          · simp [hot, ih stack2.reverse]
          · simp [hot]

/-- Claim C8: for every string, after NFKC normalization the
unpaired-delimiters check fails iff the stack discipline over the six
delimiter pairs fails (a closer on an empty stack, a closer not matching
the top opener, or a non-empty stack at the end) — stated as equality of
the source check with the spec-side discipline, for every normalizer.  In
particular, on the NFKC-fixed scenario strings, `"(東京"` fails the check
(an unpaired-delimiters defect) while `"(東京)"` passes. -/
theorem braces_paired_eq_stack_ok (nfkc : List Char → List Char) :
    (∀ text : List Char,
      braces_paired nfkc text = delimiter_stack_ok [] (nfkc text))
    ∧ (nfkc ['(', '東', '京'] = ['(', '東', '京'] →
        braces_paired nfkc ['(', '東', '京'] = false)
    ∧ (nfkc ['(', '東', '京', ')'] = ['(', '東', '京', ')'] →
        braces_paired nfkc ['(', '東', '京', ')'] = true) := by
  refine ⟨fun text => ?_, fun hfix => ?_, fun hfix => ?_⟩
  · exact braces_loop_eq_stack_ok (nfkc text) []
  · unfold braces_paired
    rw [hfix]
    decide
  · unfold braces_paired
    rw [hfix]
    decide

theorem braces_paired_eq_stack_ok_witness :
    braces_paired id ['(', '東', '京'] = false
    ∧ braces_paired id ['(', '東', '京', ')'] = true :=
  ⟨(braces_paired_eq_stack_ok id).2.1 rfl,
   (braces_paired_eq_stack_ok id).2.2 rfl⟩

/-! ### SpanValidator (`_check_html_text`, shinra/inspection/annotation.py) -/

/-- Embeds `ErrorType` (the defect taxonomy), in declaration order. -/
inductive ErrorType where
  | HTML_FILE_NOT_FOUND
  | HTML_OFFSET_MISMATCH
  | HTML_LEADING_OR_TRAILING_SPACE
  | HTML_WITH_BLOCK_TAG
  | HTML_INVISIBLE_TEXT
  | HTML_UNPAIRED_BRACES
  | HTML_OVERLAPPED_ANNOTATIONS
  | TEXT_FILE_NOT_FOUND
  | TEXT_OFFSET_MISMATCH
  | TEXT_LEADING_OR_TRAILING_SPACE
  | TEXT_UNPAIRED_BRACES
  | TEXT_OVERLAPPED_ANNOTATIONS
deriving DecidableEq

/-- Whitespace as stripped by Python `str.strip()` and matched by the
block-tag regex's `\s`, on the ASCII alphabet these annotations use
(space, tab, newline, vertical tab, form feed, carriage return). -/
def is_py_space (c : Char) : Bool :=
  c = ' ' || c = '\t' || c = '\n' || c = Char.ofNat 11 || c = Char.ofNat 12
    || c = '\r'

/-- Python `text.strip()`: drop leading and trailing whitespace. -/
def py_strip (text : List Char) : List Char :=
  ((text.dropWhile is_py_space).reverse.dropWhile is_py_space).reverse

/-- Embeds `sorted(_HTML_BLOCK_TAGS)` as interpolated into
`_RE_HTML_BLOCK_TAGS`.  Note two implicit Python string-literal
concatenations in the source set: `'thead' 'tbody'` is the single token
"theadtbody" and `'th' 'tr'` is "thtr". -/
def html_block_tags : List (List Char) :=
  [['b','o','d','y'], ['c','a','p','t','i','o','n'], ['d','d'], ['d','l'],
   ['d','t'], ['f','o','o','t','e','r'], ['h','1'], ['h','2'], ['h','3'],
   ['h','4'], ['h','5'], ['h','6'], ['h','e','a','d','e','r'],
   ['h','t','m','l'], ['i','m','g'], ['t','a','b','l','e'], ['t','d'],
   ['t','f','o','o','t'], ['t','h','e','a','d','t','b','o','d','y'],
   ['t','h','t','r']]

/-- Matches the block-tag regex `</?\s*(?:tag1|...|thtr\s*)>` at the head
of (already lowercased) text: `<`, an optional `/`, whitespace, one tag
from the list, then `>`; the regex's trailing `\s*` binds only to its
final alternative `thtr`.  Greedy scanning is equivalent to the regex's
backtracking here because no tag starts with `/` or whitespace and `>` is
not whitespace. -/
def match_block_tag_at (s : List Char) : Bool :=
  match s with
  | '<' :: rest0 =>
    let rest1 := match rest0 with
      | '/' :: r => r
      | _ => rest0
    let rest2 := rest1.dropWhile is_py_space
    html_block_tags.any fun tag =>
      tag.isPrefixOf rest2 &&
        (let after := rest2.drop tag.length
         let after2 :=
           if tag = ['t','h','t','r'] then after.dropWhile is_py_space
           else after
         match after2 with
         | '>' :: _ => true
         | _ => false)
  | _ => false

/-- Scan all suffixes for a block-tag match (the `search` part of
`_RE_HTML_BLOCK_TAGS.search`). -/
def search_block_tag : List Char → Bool
  | [] => false
  | c :: rest => match_block_tag_at (c :: rest) || search_block_tag rest

/-- Embeds `_find_html_block_tag` as a presence test:
`_RE_HTML_BLOCK_TAGS.search(html_text.lower())`.  The source returns the
matched text, which is always non-empty hence truthy; only its truthiness
is consumed by `_check_html_text`. -/
def find_html_block_tag (html_text : List Char) : Bool :=
  search_block_tag (html_text.map Char.toLower)

/-- Embeds the `start`/`end` line/column records of an annotation offset. -/
structure OffsetPoint where
  line_id : ℕ
  offset : ℕ
deriving DecidableEq

/-- Embeds an annotation's `html_offset` record: `start` (inclusive),
`stop` (the source's `end` field, exclusive; `end` is a Lean keyword) and
the expected text. -/
structure AnnotationOffset where
  start : OffsetPoint
  stop : OffsetPoint
  text : Option (List Char)
deriving DecidableEq

/-- Embeds `dataset.Annotation` as consumed by `_check_html_text`; `attr`
renders the source's `attribute` field (a Lean keyword). -/
structure Annotation where
  annotation_id : ℕ
  attr : List Char
  html_offset : Option AnnotationOffset
deriving DecidableEq

/-- The check chain of `_check_html_text` in source order, applied to the
extracted raw text, the extracted clean text and the expected text.  (The
source extracts `clean_text` only after the block-tag check; both orders
compute the same pure value.)  The two stdlib helpers are parameters:
`unescape` is `html.unescape` and `nfkc` is the NFKC normalizer applied
inside `_braces_paired`. -/
def check_texts_chain (unescape nfkc : List Char → List Char)
    (text clean_text expected : List Char) : Option ErrorType :=
  if text ≠ expected then some .HTML_OFFSET_MISMATCH
  else
    let stripped_text := py_strip expected
    if stripped_text ≠ text then some .HTML_LEADING_OR_TRAILING_SPACE
    else if find_html_block_tag text then some .HTML_WITH_BLOCK_TAG
    else
      let stripped_clean_text := py_strip clean_text
      if stripped_clean_text = [] then some .HTML_INVISIBLE_TEXT
      else if stripped_clean_text ≠ clean_text then
        some .HTML_LEADING_OR_TRAILING_SPACE
      else
        let unescaped_text := unescape clean_text
        let stripped_unescaped_text := py_strip unescaped_text
        if stripped_unescaped_text ≠ unescaped_text then
          some .HTML_LEADING_OR_TRAILING_SPACE
        else if ¬ braces_paired nfkc unescaped_text then
          some .HTML_UNPAIRED_BRACES
        else none

/-- Embeds the per-annotation body of `_check_html_text`: extract the raw
and clean texts at the record's coordinates and run the check chain,
yielding at most one defect kind; annotations without offsets or expected
text are skipped. -/
def check_html_one (unescape nfkc : List Char → List Char)
    (content clean_content : ContentC) (ann : Annotation) :
    Option ErrorType :=
  match ann.html_offset with
  | none => none
  | some offset =>
    match offset.text with
    | none => none
    | some expected =>
      check_texts_chain unescape nfkc
        (content.get_text offset.start.line_id offset.start.offset
          offset.stop.line_id offset.stop.offset)
        (clean_content.get_text offset.start.line_id offset.start.offset
          offset.stop.line_id offset.stop.offset)
        expected

/-- The per-annotation yield loop of `_check_html_text` (its first loop;
the per-attribute overlap pass is `detect_overlap_annotations` above). -/
def check_html_texts (unescape nfkc : List Char → List Char)
    (content clean_content : ContentC) :
    List Annotation → List (ErrorType × Annotation)
  | [] => []
  | ann :: rest =>
    match check_html_one unescape nfkc content clean_content ann with
    | some e =>
      (e, ann) :: check_html_texts unescape nfkc content clean_content rest
    | none => check_html_texts unescape nfkc content clean_content rest

/-- The yield loop produces at most one record per annotation. -/
theorem check_html_texts_length_le (unescape nfkc : List Char → List Char)
    (content clean_content : ContentC) (annotations : List Annotation) :
    (check_html_texts unescape nfkc content clean_content annotations).length
      ≤ annotations.length := by
  induction annotations with
  | nil => simp [check_html_texts]
  | cons ann rest ih =>
    simp only [check_html_texts]
    cases check_html_one unescape nfkc content clean_content ann with
    | none => simp only [List.length_cons]; omega
    | some e => simp only [List.length_cons]; omega


/-- Exact characterization of the check chain: each outcome occurs iff its
own test fails and every earlier test passes. -/
theorem check_texts_chain_characterization
    (unescape nfkc : List Char → List Char)
    (text clean_text expected : List Char) :
    (check_texts_chain unescape nfkc text clean_text expected = none ↔
      (text = expected ∧ py_strip expected = text
        ∧ find_html_block_tag text = false
        ∧ py_strip clean_text ≠ [] ∧ py_strip clean_text = clean_text
        ∧ py_strip (unescape clean_text) = unescape clean_text
        ∧ braces_paired nfkc (unescape clean_text) = true))
    ∧ (check_texts_chain unescape nfkc text clean_text expected
          = some ErrorType.HTML_OFFSET_MISMATCH ↔ text ≠ expected)
    ∧ (check_texts_chain unescape nfkc text clean_text expected
          = some ErrorType.HTML_LEADING_OR_TRAILING_SPACE ↔
        (text = expected ∧
          (py_strip expected ≠ text
            ∨ (py_strip expected = text ∧ find_html_block_tag text = false
                ∧ py_strip clean_text ≠ [] ∧ py_strip clean_text ≠ clean_text)
            ∨ (py_strip expected = text ∧ find_html_block_tag text = false
                ∧ py_strip clean_text ≠ [] ∧ py_strip clean_text = clean_text
                ∧ py_strip (unescape clean_text) ≠ unescape clean_text))))
    ∧ (check_texts_chain unescape nfkc text clean_text expected
          = some ErrorType.HTML_WITH_BLOCK_TAG ↔
        (text = expected ∧ py_strip expected = text
          ∧ find_html_block_tag text = true))
    ∧ (check_texts_chain unescape nfkc text clean_text expected
          = some ErrorType.HTML_INVISIBLE_TEXT ↔
        (text = expected ∧ py_strip expected = text
          ∧ find_html_block_tag text = false ∧ py_strip clean_text = []))
    ∧ (check_texts_chain unescape nfkc text clean_text expected
          = some ErrorType.HTML_UNPAIRED_BRACES ↔
        (text = expected ∧ py_strip expected = text
          ∧ find_html_block_tag text = false
          ∧ py_strip clean_text ≠ [] ∧ py_strip clean_text = clean_text
          ∧ py_strip (unescape clean_text) = unescape clean_text
          ∧ braces_paired nfkc (unescape clean_text) = false)) := by
  by_cases h1 : text = expected
  · subst h1
    by_cases h2 : py_strip text = text
    · by_cases h3 : find_html_block_tag text = true
      · simp [check_texts_chain, h2, h3]
      · by_cases h4 : py_strip clean_text = []
        · simp [check_texts_chain, h2, h3, h4]
        · by_cases h5 : py_strip clean_text = clean_text
          · rw [h5] at h4
            by_cases h6 : py_strip (unescape clean_text) = unescape clean_text
            · by_cases h7 : braces_paired nfkc (unescape clean_text) = true
              · simp [check_texts_chain, h2, h3, h4, h5, h6, h7]
              · simp [check_texts_chain, h2, h3, h4, h5, h6, h7]
            · simp [check_texts_chain, h2, h3, h4, h5, h6]
          · simp [check_texts_chain, h2, h3, h4, h5]
    · simp [check_texts_chain, h2]
  · simp [check_texts_chain, h1]

/-- Claim C4: for every annotation with expected text, the per-annotation
checks of `_check_html_text` run in the fixed order offset-mismatch;
leading/trailing whitespace; block tag; invisible text; whitespace after
stripping; whitespace after entity decoding; unpaired delimiters —
short-circuiting at the first failure: each defect fires iff its own test
fails and all earlier tests pass, no defect is produced iff every test
passes (at most one defect per record, since the checker yields one
optional defect, and the yield loop emits at most one record per input
entry).  `unescape`/`nfkc` range over the external stdlib helpers. -/
theorem check_html_one_order (unescape nfkc : List Char → List Char)
    (content clean_content : ContentC) (ann : Annotation)
    (offset : AnnotationOffset) (expected text clean_text : List Char)
    (hoff : ann.html_offset = some offset)
    (hexp : offset.text = some expected)
    (hraw : content.get_text offset.start.line_id offset.start.offset
      offset.stop.line_id offset.stop.offset = text)
    (hclean : clean_content.get_text offset.start.line_id offset.start.offset
      offset.stop.line_id offset.stop.offset = clean_text) :
    (check_html_one unescape nfkc content clean_content ann = none ↔
      (text = expected ∧ py_strip expected = text
        ∧ find_html_block_tag text = false
        ∧ py_strip clean_text ≠ [] ∧ py_strip clean_text = clean_text
        ∧ py_strip (unescape clean_text) = unescape clean_text
        ∧ braces_paired nfkc (unescape clean_text) = true))
    ∧ (check_html_one unescape nfkc content clean_content ann
          = some ErrorType.HTML_OFFSET_MISMATCH ↔ text ≠ expected)
    ∧ (check_html_one unescape nfkc content clean_content ann
          = some ErrorType.HTML_LEADING_OR_TRAILING_SPACE ↔
        (text = expected ∧
          (py_strip expected ≠ text
            ∨ (py_strip expected = text ∧ find_html_block_tag text = false
                ∧ py_strip clean_text ≠ [] ∧ py_strip clean_text ≠ clean_text)
            ∨ (py_strip expected = text ∧ find_html_block_tag text = false
                ∧ py_strip clean_text ≠ [] ∧ py_strip clean_text = clean_text
                ∧ py_strip (unescape clean_text) ≠ unescape clean_text))))
    ∧ (check_html_one unescape nfkc content clean_content ann
          = some ErrorType.HTML_WITH_BLOCK_TAG ↔
        (text = expected ∧ py_strip expected = text
          ∧ find_html_block_tag text = true))
    ∧ (check_html_one unescape nfkc content clean_content ann
          = some ErrorType.HTML_INVISIBLE_TEXT ↔
        (text = expected ∧ py_strip expected = text
          ∧ find_html_block_tag text = false ∧ py_strip clean_text = []))
    ∧ (check_html_one unescape nfkc content clean_content ann
          = some ErrorType.HTML_UNPAIRED_BRACES ↔
        (text = expected ∧ py_strip expected = text
          ∧ find_html_block_tag text = false
          ∧ py_strip clean_text ≠ [] ∧ py_strip clean_text = clean_text
          ∧ py_strip (unescape clean_text) = unescape clean_text
          ∧ braces_paired nfkc (unescape clean_text) = false))
    ∧ (∀ annotations : List Annotation,
        (check_html_texts unescape nfkc content clean_content
            annotations).length ≤ annotations.length) := by
  subst hraw
  subst hclean
  have hrw : check_html_one unescape nfkc content clean_content ann
      = check_texts_chain unescape nfkc
          (content.get_text offset.start.line_id offset.start.offset
            offset.stop.line_id offset.stop.offset)
          (clean_content.get_text offset.start.line_id offset.start.offset
            offset.stop.line_id offset.stop.offset) expected := by
    simp only [check_html_one, hoff, hexp]
  rw [hrw]
  obtain ⟨a1, a2, a3, a4, a5, a6⟩ :=
    check_texts_chain_characterization unescape nfkc
      (content.get_text offset.start.line_id offset.start.offset
        offset.stop.line_id offset.stop.offset)
      (clean_content.get_text offset.start.line_id offset.start.offset
        offset.stop.line_id offset.stop.offset) expected
  exact ⟨a1, a2, a3, a4, a5, a6,
    check_html_texts_length_le unescape nfkc content clean_content⟩

theorem check_html_one_order_witness :
    check_html_one id id ⟨[' ','t','e','s','t',' ']⟩ ⟨[' ','t','e','s','t',' ']⟩
        ⟨0, ['p','e','r','s','o','n'],
         some ⟨⟨0, 0⟩, ⟨0, 6⟩, some [' ','t','e','s','t',' ']⟩⟩
      = some ErrorType.HTML_LEADING_OR_TRAILING_SPACE
    ∧ check_html_one id id ⟨[' ','t','e','s','t',' ']⟩ ⟨[' ','t','e','s','t',' ']⟩
        ⟨0, ['p','e','r','s','o','n'],
         some ⟨⟨0, 0⟩, ⟨0, 6⟩, some [' ','t','e','s','t',' ']⟩⟩
      ≠ some ErrorType.HTML_OFFSET_MISMATCH := by
  have h := check_html_one_order id id
    ⟨[' ','t','e','s','t',' ']⟩ ⟨[' ','t','e','s','t',' ']⟩
    ⟨0, ['p','e','r','s','o','n'],
     some ⟨⟨0, 0⟩, ⟨0, 6⟩, some [' ','t','e','s','t',' ']⟩⟩
    ⟨⟨0, 0⟩, ⟨0, 6⟩, some [' ','t','e','s','t',' ']⟩
    [' ','t','e','s','t',' '] [' ','t','e','s','t',' '] [' ','t','e','s','t',' ']
    rfl rfl (by decide) (by decide)
  exact ⟨h.2.2.1.mpr ⟨rfl, Or.inl (by decide)⟩,
    fun hc => absurd rfl (h.2.1.mp hc)⟩
